import Mathlib

/-!
Verification of `scripts/follow_manager.py` (github-follow-sync).

The script is shallowly embedded as pure Lean functions over an explicit
environment of planned HTTP responses.  Each network interaction, print
statement and sleep of the Python code becomes an `Event` in a trace, so
temporal claims (ordering, absence of mutation calls) are statements about
the produced trace.  Python exceptions are modelled by a Boolean
completion flag: `false` means an exception propagated and the run
aborted at that point.
-/

namespace FollowManager

/-- Base URL constant, from `GITHUB_API = "https://api.github.com"`. -/
def GITHUB_API : String := "https://api.github.com"

/-- URL requested by `get_followers`. -/
def followersUrl : String := GITHUB_API ++ "/user/followers"

/-- URL requested by `get_following`. -/
def followingUrl : String := GITHUB_API ++ "/user/following"

/-- Execution mode of one run, from `--mode {dry-run, execute}`. -/
inductive Mode where
  | dryRun
  | execute
deriving DecidableEq, Repr

/-- Parsed command-line arguments of `main`. -/
structure Args where
  mode : Mode
  maxFollows : Nat
  maxUnfollows : Nat

/-- Observable events of one run: network calls, sleeps and prints.
Print statements are kept structured (payload, not formatting). -/
inductive Event where
  | getRateLimit
  | infoRemaining (remaining : Int)
  | warnRateSleep (secs : Int)
  | rateSleep (secs : Int)
  | getPage (url : String) (page : Nat)
  | fetchError (body : String)
  | put (username : String)
  | delete (username : String)
  | paceSleep
  | printTokenError
  | printCounts (nFollow nUnfollow : Nat)
  | dryRunReport (toFollow toUnfollow : List String)
  | actionFollow (username : String)
  | successFollow (username : String)
  | actionUnfollow (username : String)
  | successUnfollow (username : String)
deriving DecidableEq, Repr

/-- The parsed `rate` object of the rate-limit response body. -/
structure RateBody where
  remaining : Int
  reset : Int
deriving DecidableEq, Repr

/-- A rate-limit response: its HTTP status and, when the body parses as
JSON carrying `rate.remaining` and `rate.reset`, that parsed content
(`none` models a malformed body: `r.json()` or the key lookups raise). -/
structure RateResp where
  status : Nat
  body : Option RateBody
deriving DecidableEq, Repr

/-- One planned response to a page request of `get_paginated`:
either status 200 with a parsed list of `login` fields, or a
non-success status whose body text gets logged. -/
inductive PageResp where
  | ok (logins : List String)
  | err (body : String)
deriving DecidableEq, Repr

/-- The `login` entries a page contributes (an error page contributes none). -/
def pageLogins : PageResp → List String
  | PageResp.ok l => l
  | PageResp.err _ => []

/-- All `login` entries of a page sequence, in page order. -/
def pagesLogins : List PageResp → List String
  | [] => []
  | p :: t => pageLogins p ++ pagesLogins t

/-- Adding one element to the accumulated Python `set` (`users.add`):
membership is what matters, insertion order is kept for concreteness. -/
def insertLogin (acc : List String) (u : String) : List String :=
  if u ∈ acc then acc else acc ++ [u]

/-- The `for user in data: users.add(user["login"])` loop over one page. -/
def insertAll (acc : List String) (logins : List String) : List String :=
  logins.foldl insertLogin acc

/-- Embedding of `check_rate_limit`.  The source reads `r.json()` without
ever inspecting `r.status_code`; a malformed body (`body = none`) makes
`r.json()` / the key lookups raise, so the flag is `false` there.
Otherwise it prints the remaining quota and, when `remaining < 5`,
sleeps `max(reset - int(time.time()), 0)` seconds. -/
def check_rate_limit (resp : RateResp) (now : Int) : List Event × Bool :=
  match resp.body with
  | none => ([Event.getRateLimit], false)
  | some b =>
    if b.remaining < 5 then
      ([Event.getRateLimit, Event.infoRemaining b.remaining,
        Event.warnRateSleep (max (b.reset - now) 0),
        Event.rateSleep (max (b.reset - now) 0)], true)
    else
      ([Event.getRateLimit, Event.infoRemaining b.remaining], true)

/-- Embedding of the `while True` loop of `get_paginated`, with the
environment supplying the response to each successive page request.
A non-200 response logs the body and breaks; an empty page breaks;
otherwise the logins are added and the next page is requested.  The
loop consumes at most the supplied responses. -/
def get_paginated_aux (url : String) : List PageResp → Nat → List String → List Event × List String
  | [], _, acc => ([], acc)
  | PageResp.err body :: _, page, acc =>
    ([Event.getPage url page, Event.fetchError body], acc)
  | PageResp.ok logins :: rest, page, acc =>
    if logins = [] then ([Event.getPage url page], acc)
    else
      let r := get_paginated_aux url rest (page + 1) (insertAll acc logins)
      (Event.getPage url page :: r.1, r.2)

/-- Embedding of `get_paginated`: starts at `page = 1` with an empty set. -/
def get_paginated (url : String) (pages : List PageResp) : List Event × List String :=
  get_paginated_aux url pages 1 []

/-- Embedding of `follow_user`: the returned Boolean is
`r.status_code == 204` for the PUT response status. -/
def follow_user (username : String) (status : Nat) : Bool :=
  status == 204

/-- Embedding of `unfollow_user`: the returned Boolean is
`r.status_code == 204` for the DELETE response status. -/
def unfollow_user (username : String) (status : Nat) : Bool :=
  status == 204

/-- The candidate computation of `main`, lines 91-92:
`to_follow = list(followers - following)[:max_follows]` and
`to_unfollow = list(following - followers)[:max_unfollows]`.
The sets are carried as lists in their iteration order, so the set
difference is a filter and the slice is a take. -/
def reconcile (followers following : List String) (maxFollows maxUnfollows : Nat) :
    List String × List String :=
  ((followers.filter (fun u => decide (u ∉ following))).take maxFollows,
   (following.filter (fun u => decide (u ∉ followers))).take maxUnfollows)

/-- The execute-mode follow loop of `main`: print the action, issue the
PUT, print success exactly when `follow_user` returned true, then sleep. -/
def executeFollows (status : String → Nat) : List String → List Event
  | [] => []
  | u :: rest =>
    [Event.actionFollow u, Event.put u] ++
      (if follow_user u (status u) then [Event.successFollow u] else []) ++
      [Event.paceSleep] ++ executeFollows status rest

/-- The execute-mode unfollow loop of `main`, mirroring `executeFollows`
with the DELETE call. -/
def executeUnfollows (status : String → Nat) : List String → List Event
  | [] => []
  | u :: rest =>
    [Event.actionUnfollow u, Event.delete u] ++
      (if unfollow_user u (status u) then [Event.successUnfollow u] else []) ++
      [Event.paceSleep] ++ executeUnfollows status rest

/-- Environment of one invocation: the token variable, the planned
rate-limit response, the clock, the planned pages of both list
endpoints, and the status each mutation call would receive. -/
structure Env where
  token : Option String
  rate : RateResp
  now : Int
  followerPages : List PageResp
  followingPages : List PageResp
  followStatus : String → Nat
  unfollowStatus : String → Nat

/-- Embedding of `main` after argument parsing: missing token prints the
error and returns; the rate-limit check may abort the run (flag `false`);
then both endpoints are paginated, candidates are computed, counts are
printed, and either the dry-run report is printed or both loops run. -/
def mainRun (args : Args) (env : Env) : List Event × Bool :=
  match env.token with
  | none => ([Event.printTokenError], true)
  | some _ =>
    let rl := check_rate_limit env.rate env.now
    if rl.2 = false then (rl.1, false)
    else
      let f := get_paginated followersUrl env.followerPages
      let g := get_paginated followingUrl env.followingPages
      let c := reconcile f.2 g.2 args.maxFollows args.maxUnfollows
      let pre := rl.1 ++ f.1 ++ g.1 ++ [Event.printCounts c.1.length c.2.length]
      match args.mode with
      | Mode.dryRun => (pre ++ [Event.dryRunReport c.1 c.2], true)
      | Mode.execute =>
        (pre ++ executeFollows env.followStatus c.1 ++
          executeUnfollows env.unfollowStatus c.2, true)

/-- A mutation call (PUT or DELETE), tagged `true` for follow. -/
def mutationOf : Event → Option (Bool × String)
  | Event.put u => some (true, u)
  | Event.delete u => some (false, u)
  | _ => none

/-- The subsequence of mutation calls of a trace. -/
def mutationTrace (evs : List Event) : List (Bool × String) :=
  evs.filterMap mutationOf

/-- Whether an event is a network call at all. -/
def isNetwork : Event → Bool
  | Event.getRateLimit => true
  | Event.getPage _ _ => true
  | Event.put _ => true
  | Event.delete _ => true
  | _ => false

/-- Whether an HTTP status is a success (2xx) status. -/
def is2xx (status : Nat) : Bool :=
  200 ≤ status && status < 300

/-- The usernames of the logged follow-success lines of a trace, in order. -/
def successFollowsOf (evs : List Event) : List String :=
  evs.filterMap fun e =>
    match e with
    | Event.successFollow u => some u
    | _ => none

/-- The usernames of the logged unfollow-success lines of a trace, in order. -/
def successUnfollowsOf (evs : List Event) : List String :=
  evs.filterMap fun e =>
    match e with
    | Event.successUnfollow u => some u
    | _ => none

/-- The usernames of the PUT calls of a trace, in order. -/
def putsOf (evs : List Event) : List String :=
  evs.filterMap fun e =>
    match e with
    | Event.put u => some u
    | _ => none

/-- The usernames of the DELETE calls of a trace, in order. -/
def deletesOf (evs : List Event) : List String :=
  evs.filterMap fun e =>
    match e with
    | Event.delete u => some u
    | _ => none

/-! ### Helper lemmas about `reconcile` -/

lemma mem_reconcile_fst {F G : List String} {maxF maxU : Nat} {u : String}
    (h : u ∈ (reconcile F G maxF maxU).1) : u ∈ F ∧ u ∉ G := by
  have h' := List.mem_of_mem_take h
  have := List.mem_filter.mp h'
  exact ⟨this.1, by simpa using this.2⟩

lemma mem_reconcile_snd {F G : List String} {maxF maxU : Nat} {u : String}
    (h : u ∈ (reconcile F G maxF maxU).2) : u ∈ G ∧ u ∉ F := by
  have h' := List.mem_of_mem_take h
  have := List.mem_filter.mp h'
  exact ⟨this.1, by simpa using this.2⟩

/-- C1: the candidate lists are drawn from the respective set differences
and are bounded by the caps. -/
theorem reconcile_subset_and_bounded (F G : List String) (maxF maxU : Nat) :
    (∀ u ∈ (reconcile F G maxF maxU).1, u ∈ F ∧ u ∉ G) ∧
    (∀ u ∈ (reconcile F G maxF maxU).2, u ∈ G ∧ u ∉ F) ∧
    (reconcile F G maxF maxU).1.length ≤ maxF ∧
    (reconcile F G maxF maxU).2.length ≤ maxU := by
  refine ⟨fun u hu => mem_reconcile_fst hu, fun u hu => mem_reconcile_snd hu, ?_, ?_⟩
  · simpa [reconcile] using List.length_take_le maxF _
  · simpa [reconcile] using List.length_take_le maxU _

theorem reconcile_subset_and_bounded_witness :
    "alice" ∈ ["alice", "bob"] ∧ "alice" ∉ ["bob", "dave"] :=
  (reconcile_subset_and_bounded ["alice", "bob"] ["bob", "dave"] 5 5).1 "alice" (by decide)

/-- C10: no identifier appears in both candidate lists: a single run never
both follows and unfollows the same account. -/
theorem reconcile_lists_disjoint (F G : List String) (maxF maxU : Nat) (u : String)
    (h : u ∈ (reconcile F G maxF maxU).1) : u ∉ (reconcile F G maxF maxU).2 := by
  intro h2
  exact (mem_reconcile_snd h2).2 (mem_reconcile_fst h).1

theorem reconcile_lists_disjoint_witness :
    "alice" ∉ (reconcile ["alice"] ["bob"] 5 5).2 :=
  reconcile_lists_disjoint ["alice"] ["bob"] 5 5 "alice" (by decide)

/-! ### Helper lemmas about the paginated fetcher -/

lemma mem_insertLogin (acc : List String) (v u : String) :
    u ∈ insertLogin acc v ↔ u ∈ acc ∨ u = v := by
  unfold insertLogin
  split
  · next hv =>
    constructor
    · exact Or.inl
    · rintro (h | rfl)
      · exact h
      · exact hv
  · simp

lemma mem_insertAll (l : List String) (acc : List String) (u : String) :
    u ∈ insertAll acc l ↔ u ∈ acc ∨ u ∈ l := by
  induction l generalizing acc with
  | nil => simp [insertAll]
  | cons v t ih =>
    have hstep : insertAll acc (v :: t) = insertAll (insertLogin acc v) t := rfl
    rw [hstep, ih, mem_insertLogin]
    simp [or_assoc]

lemma insertAll_append (acc : List String) (l₁ l₂ : List String) :
    insertAll acc (l₁ ++ l₂) = insertAll (insertAll acc l₁) l₂ :=
  List.foldl_append ..

lemma get_paginated_aux_cons_ok (url : String) (l : List String) (rest : List PageResp)
    (page : Nat) (acc : List String) (hl : l ≠ []) :
    get_paginated_aux url (PageResp.ok l :: rest) page acc =
      (Event.getPage url page :: (get_paginated_aux url rest (page + 1) (insertAll acc l)).1,
       (get_paginated_aux url rest (page + 1) (insertAll acc l)).2) := by
  simp [get_paginated_aux, hl]

/-- Running the loop over an all-successful, all-nonempty prefix `ps`
requests pages `k, k+1, ...` in order, accumulates every login of `ps`,
and continues into `rest` at page `k + ps.length`. -/
lemma get_paginated_aux_ok_append (url : String) (ps rest : List PageResp)
    (k : Nat) (acc : List String)
    (h : ∀ p ∈ ps, ∃ l, p = PageResp.ok l ∧ l ≠ []) :
    get_paginated_aux url (ps ++ rest) k acc =
      (((List.range' k ps.length).map (Event.getPage url)) ++
        (get_paginated_aux url rest (k + ps.length) (insertAll acc (pagesLogins ps))).1,
       (get_paginated_aux url rest (k + ps.length) (insertAll acc (pagesLogins ps))).2) := by
  induction ps generalizing k acc with
  | nil => simp [pagesLogins, insertAll]
  | cons p t ih =>
    obtain ⟨l, rfl, hl⟩ := h p (List.mem_cons_self p t)
    have ht : ∀ q ∈ t, ∃ l, q = PageResp.ok l ∧ l ≠ [] :=
      fun q hq => h q (List.mem_cons_of_mem _ hq)
    have harith : k + (t.length + 1) = (k + 1) + t.length := by omega
    have hp : pagesLogins (PageResp.ok l :: t) = l ++ pagesLogins t := rfl
    rw [List.cons_append, get_paginated_aux_cons_ok url l (t ++ rest) k acc hl,
      ih (k + 1) (insertAll acc l) ht, hp, insertAll_append, List.length_cons,
      List.range'_succ, List.map_cons, harith]
    simp

/-- C3: over successful pages ending in the first empty page, the fetch
requests pages 1, 2, ... in order up to and including the empty page, and
returns exactly the logins occurring in the nonempty pages. -/
theorem get_paginated_stops_at_empty_page (url : String) (ps : List PageResp)
    (h : ∀ p ∈ ps, ∃ l, p = PageResp.ok l ∧ l ≠ []) :
    (get_paginated url (ps ++ [PageResp.ok []])).1 =
      (List.range' 1 (ps.length + 1)).map (Event.getPage url) ∧
    ∀ u, u ∈ (get_paginated url (ps ++ [PageResp.ok []])).2 ↔ u ∈ pagesLogins ps := by
  have hrw := get_paginated_aux_ok_append url ps [PageResp.ok []] 1 [] h
  have hlast : ∀ k acc, get_paginated_aux url [PageResp.ok []] k acc =
      ([Event.getPage url k], acc) := fun k acc => rfl
  rw [hlast] at hrw
  unfold get_paginated
  rw [hrw]
  constructor
  · rw [List.range'_1_concat, List.map_append]
    simp [Nat.add_comm]
  · intro u
    simpa using mem_insertAll (pagesLogins ps) [] u

theorem get_paginated_stops_at_empty_page_witness :
    ((∀ p ∈ [PageResp.ok ["A", "B"], PageResp.ok ["C"]],
        ∃ l, p = PageResp.ok l ∧ l ≠ []) ∧
      (get_paginated followersUrl
          [PageResp.ok ["A", "B"], PageResp.ok ["C"], PageResp.ok []]).1 =
        (List.range' 1 3).map (Event.getPage followersUrl)) ∧
    ("C" ∈ (get_paginated followersUrl
        [PageResp.ok ["A", "B"], PageResp.ok ["C"], PageResp.ok []]).2 ↔
      "C" ∈ pagesLogins [PageResp.ok ["A", "B"], PageResp.ok ["C"]]) := by
  have hh : ∀ p ∈ [PageResp.ok ["A", "B"], PageResp.ok ["C"]],
      ∃ l, p = PageResp.ok l ∧ l ≠ [] := by
    intro p hp
    simp only [List.mem_cons, List.not_mem_nil, or_false] at hp
    rcases hp with rfl | rfl
    · exact ⟨["A", "B"], rfl, by simp⟩
    · exact ⟨["C"], rfl, by simp⟩
  have := get_paginated_stops_at_empty_page followersUrl
    [PageResp.ok ["A", "B"], PageResp.ok ["C"]] hh
  exact ⟨⟨hh, this.1⟩, this.2 "C"⟩

/-- C4: when a page request returns a non-success status after successful
pages, the fetch logs the error body right after that request, stops, and
returns the logins accumulated from the preceding pages, without raising
(the function returns normally). -/
theorem get_paginated_stops_at_error (url : String) (ps : List PageResp) (body : String)
    (h : ∀ p ∈ ps, ∃ l, p = PageResp.ok l ∧ l ≠ []) :
    (get_paginated url (ps ++ [PageResp.err body])).1 =
      (List.range' 1 (ps.length + 1)).map (Event.getPage url) ++ [Event.fetchError body] ∧
    ∀ u, u ∈ (get_paginated url (ps ++ [PageResp.err body])).2 ↔ u ∈ pagesLogins ps := by
  have hrw := get_paginated_aux_ok_append url ps [PageResp.err body] 1 [] h
  have hlast : ∀ k acc, get_paginated_aux url [PageResp.err body] k acc =
      ([Event.getPage url k, Event.fetchError body], acc) := fun k acc => rfl
  rw [hlast] at hrw
  unfold get_paginated
  rw [hrw]
  constructor
  · rw [List.range'_1_concat, List.map_append]
    simp [Nat.add_comm]
  · intro u
    simpa using mem_insertAll (pagesLogins ps) [] u

theorem get_paginated_stops_at_error_witness :
    ((∀ p ∈ [PageResp.ok ["A"]], ∃ l, p = PageResp.ok l ∧ l ≠ []) ∧
      (get_paginated followersUrl [PageResp.ok ["A"], PageResp.err "boom"]).1 =
        (List.range' 1 2).map (Event.getPage followersUrl) ++ [Event.fetchError "boom"]) ∧
    ("A" ∈ (get_paginated followersUrl [PageResp.ok ["A"], PageResp.err "boom"]).2 ↔
      "A" ∈ pagesLogins [PageResp.ok ["A"]]) := by
  have hh : ∀ p ∈ [PageResp.ok ["A"]], ∃ l, p = PageResp.ok l ∧ l ≠ [] := by
    intro p hp
    simp only [List.mem_cons, List.not_mem_nil, or_false] at hp
    rcases hp with rfl
    exact ⟨["A"], rfl, by simp⟩
  have := get_paginated_stops_at_error followersUrl [PageResp.ok ["A"]] "boom" hh
  exact ⟨⟨hh, this.1⟩, this.2 "A"⟩

/-! ### Rate-limit guard -/

/-- C5: with a parsed body, the guard sleeps exactly
`max(reset - now, 0)` seconds when the remaining quota is below 5, and
emits no sleep at all when the quota is at least 5. -/
theorem rate_limit_guard_sleep (resp : RateResp) (b : RateBody) (now : Int)
    (hb : resp.body = some b) :
    (b.remaining < 5 →
      (check_rate_limit resp now).1 =
        [Event.getRateLimit, Event.infoRemaining b.remaining,
         Event.warnRateSleep (max (b.reset - now) 0),
         Event.rateSleep (max (b.reset - now) 0)]) ∧
    (5 ≤ b.remaining → ∀ s, Event.rateSleep s ∉ (check_rate_limit resp now).1) := by
  constructor
  · intro hlow
    simp [check_rate_limit, hb, hlow]
  · intro hhigh s
    have : ¬ b.remaining < 5 := not_lt.mpr hhigh
    simp [check_rate_limit, hb, this]

theorem rate_limit_guard_sleep_witness :
    (check_rate_limit ⟨200, some ⟨2, 10⟩⟩ 0).1 =
      [Event.getRateLimit, Event.infoRemaining 2,
       Event.warnRateSleep (max (10 - 0) 0), Event.rateSleep (max (10 - 0) 0)] :=
  (rate_limit_guard_sleep ⟨200, some ⟨2, 10⟩⟩ ⟨2, 10⟩ 0 rfl).1 (by decide)

/-- C6 counterexample: a rate-limit response with non-2xx status 500 but a
well-formed body makes `check_rate_limit` return normally (flag `true`):
the source never inspects the status code, so a failing inspection call is
not always fatal, contrary to the claim. -/
theorem rate_limit_nonSuccess_not_fatal :
    is2xx 500 = false ∧
      (check_rate_limit ⟨500, some ⟨1000, 0⟩⟩ 0).2 = true := by
  constructor
  · rfl
  · rfl

/-- C6 amended: the rate-limit check aborts (an exception propagates) if
and only if the body is malformed, regardless of the HTTP status; and
when the body is malformed and a token is present, the whole run aborts
with no mutation issued. -/
theorem rate_limit_fatal_iff_malformed_body :
    (∀ resp : RateResp, ∀ now : Int,
      ((check_rate_limit resp now).2 = false ↔ resp.body = none)) ∧
    (∀ args : Args, ∀ env : Env, ∀ tok : String,
      env.token = some tok → env.rate.body = none →
        (mainRun args env).2 = false ∧ mutationTrace (mainRun args env).1 = []) := by
  constructor
  · intro resp now
    cases hb : resp.body with
    | none => simp [check_rate_limit, hb]
    | some b =>
      simp only [check_rate_limit, hb]
      split <;> simp
  · intro args env tok htok hb
    simp [mainRun, htok, check_rate_limit, hb, mutationTrace, mutationOf]

theorem rate_limit_fatal_iff_malformed_body_witness :
    (mainRun ⟨Mode.execute, 5, 5⟩
        ⟨some "t", ⟨200, none⟩, 0, [], [], fun _ => 204, fun _ => 204⟩).2 = false ∧
    mutationTrace (mainRun ⟨Mode.execute, 5, 5⟩
        ⟨some "t", ⟨200, none⟩, 0, [], [], fun _ => 204, fun _ => 204⟩).1 = [] :=
  rate_limit_fatal_iff_malformed_body.2 ⟨Mode.execute, 5, 5⟩
    ⟨some "t", ⟨200, none⟩, 0, [], [], fun _ => 204, fun _ => 204⟩ "t" rfl rfl

/-! ### Execute-mode loops -/

lemma successFollowsOf_executeFollows (st : String → Nat) (l : List String) :
    successFollowsOf (executeFollows st l) = l.filter (fun u => st u == 204) := by
  induction l with
  | nil => rfl
  | cons v t ih =>
    by_cases hv : st v = 204 <;>
      simp [executeFollows, successFollowsOf, follow_user, hv,
        List.filterMap_append, List.filter_cons, ih] <;>
      simp [successFollowsOf] at ih <;> exact ih

lemma putsOf_executeFollows (st : String → Nat) (l : List String) :
    putsOf (executeFollows st l) = l := by
  induction l with
  | nil => rfl
  | cons v t ih =>
    by_cases hv : st v = 204 <;>
      simp [executeFollows, putsOf, follow_user, hv, List.filterMap_append] <;>
      simp [putsOf] at ih <;> exact ih

lemma successUnfollowsOf_executeUnfollows (st : String → Nat) (l : List String) :
    successUnfollowsOf (executeUnfollows st l) = l.filter (fun u => st u == 204) := by
  induction l with
  | nil => rfl
  | cons v t ih =>
    by_cases hv : st v = 204 <;>
      simp [executeUnfollows, successUnfollowsOf, unfollow_user, hv,
        List.filterMap_append, List.filter_cons, ih] <;>
      simp [successUnfollowsOf] at ih <;> exact ih

lemma deletesOf_executeUnfollows (st : String → Nat) (l : List String) :
    deletesOf (executeUnfollows st l) = l := by
  induction l with
  | nil => rfl
  | cons v t ih =>
    by_cases hv : st v = 204 <;>
      simp [executeUnfollows, deletesOf, unfollow_user, hv, List.filterMap_append] <;>
      simp [deletesOf] at ih <;> exact ih

lemma successFollow_mem_iff (evs : List Event) (u : String) :
    Event.successFollow u ∈ evs ↔ u ∈ successFollowsOf evs := by
  rw [successFollowsOf, List.mem_filterMap]
  constructor
  · intro h
    exact ⟨Event.successFollow u, h, rfl⟩
  · rintro ⟨e, he, hf⟩
    cases e <;> simp_all

lemma successUnfollow_mem_iff (evs : List Event) (u : String) :
    Event.successUnfollow u ∈ evs ↔ u ∈ successUnfollowsOf evs := by
  rw [successUnfollowsOf, List.mem_filterMap]
  constructor
  · intro h
    exact ⟨Event.successUnfollow u, h, rfl⟩
  · rintro ⟨e, he, hf⟩
    cases e <;> simp_all

lemma put_mem_iff (evs : List Event) (u : String) :
    Event.put u ∈ evs ↔ u ∈ putsOf evs := by
  rw [putsOf, List.mem_filterMap]
  constructor
  · intro h
    exact ⟨Event.put u, h, rfl⟩
  · rintro ⟨e, he, hf⟩
    cases e <;> simp_all

lemma delete_mem_iff (evs : List Event) (u : String) :
    Event.delete u ∈ evs ↔ u ∈ deletesOf evs := by
  rw [deletesOf, List.mem_filterMap]
  constructor
  · intro h
    exact ⟨Event.delete u, h, rfl⟩
  · rintro ⟨e, he, hf⟩
    cases e <;> simp_all

/-- C7: an action is treated as succeeded exactly on status 204 (that is
what `follow_user` / `unfollow_user` return), a success line is logged
for an identifier exactly when it is in the list and its status is 204,
and a non-204 status is non-fatal: every identifier of the list still
gets its own PUT (resp. DELETE) call, whatever the statuses are. -/
theorem follow_success_iff_204 (st : String → Nat) (l : List String) (u : String) :
    (follow_user u (st u) = true ↔ st u = 204) ∧
    (unfollow_user u (st u) = true ↔ st u = 204) ∧
    (Event.successFollow u ∈ executeFollows st l ↔ u ∈ l ∧ st u = 204) ∧
    (Event.put u ∈ executeFollows st l ↔ u ∈ l) ∧
    (Event.successUnfollow u ∈ executeUnfollows st l ↔ u ∈ l ∧ st u = 204) ∧
    (Event.delete u ∈ executeUnfollows st l ↔ u ∈ l) := by
  refine ⟨by simp [follow_user], by simp [unfollow_user], ?_, ?_, ?_, ?_⟩
  · rw [successFollow_mem_iff, successFollowsOf_executeFollows, List.mem_filter]
    simp
  · rw [put_mem_iff, putsOf_executeFollows]
  · rw [successUnfollow_mem_iff, successUnfollowsOf_executeUnfollows, List.mem_filter]
    simp
  · rw [delete_mem_iff, deletesOf_executeUnfollows]

/-! ### Traces of `mainRun` -/

lemma mutationTrace_append (a b : List Event) :
    mutationTrace (a ++ b) = mutationTrace a ++ mutationTrace b :=
  List.filterMap_append ..

lemma check_rate_limit_snd_some (resp : RateResp) (now : Int) (b : RateBody)
    (hb : resp.body = some b) : (check_rate_limit resp now).2 = true := by
  by_cases hr : b.remaining < 5 <;> simp [check_rate_limit, hb, hr]

lemma mutationTrace_check_rate_limit (resp : RateResp) (now : Int) :
    mutationTrace (check_rate_limit resp now).1 = [] := by
  rcases resp with ⟨st, body⟩
  cases body with
  | none => rfl
  | some b =>
    by_cases hr : b.remaining < 5
    · simp only [check_rate_limit, if_pos hr]
      rfl
    · simp only [check_rate_limit, if_neg hr]
      rfl

lemma mutationTrace_get_paginated_aux (url : String) (ps : List PageResp)
    (k : Nat) (acc : List String) :
    mutationTrace (get_paginated_aux url ps k acc).1 = [] := by
  induction ps generalizing k acc with
  | nil => rfl
  | cons p t ih =>
    cases p with
    | err body => rfl
    | ok logins =>
      by_cases hl : logins = []
      · subst hl
        rfl
      · simp only [get_paginated_aux, if_neg hl]
        simpa [mutationTrace, mutationOf] using ih (k + 1) (insertAll acc logins)

lemma mutationTrace_get_paginated (url : String) (pages : List PageResp) :
    mutationTrace (get_paginated url pages).1 = [] :=
  mutationTrace_get_paginated_aux url pages 1 []

lemma mutationTrace_executeFollows (st : String → Nat) (l : List String) :
    mutationTrace (executeFollows st l) = l.map (fun u => (true, u)) := by
  induction l with
  | nil => rfl
  | cons v t ih =>
    by_cases hv : st v = 204 <;>
      simp [executeFollows, follow_user, hv, mutationTrace, mutationOf,
        List.filterMap_append] <;>
      simp [mutationTrace, mutationOf] at ih <;> exact ih

lemma mutationTrace_nil : mutationTrace [] = [] := rfl

lemma mutationTrace_printCounts_cons (a b : Nat) (evs : List Event) :
    mutationTrace (Event.printCounts a b :: evs) = mutationTrace evs := rfl

lemma mutationTrace_dryRunReport_cons (x y : List String) (evs : List Event) :
    mutationTrace (Event.dryRunReport x y :: evs) = mutationTrace evs := rfl

lemma mutationTrace_executeUnfollows (st : String → Nat) (l : List String) :
    mutationTrace (executeUnfollows st l) = l.map (fun u => (false, u)) := by
  induction l with
  | nil => rfl
  | cons v t ih =>
    by_cases hv : st v = 204 <;>
      simp [executeUnfollows, unfollow_user, hv, mutationTrace, mutationOf,
        List.filterMap_append] <;>
      simp [mutationTrace, mutationOf] at ih <;> exact ih

/-- C2: in dry-run mode the run issues no PUT and no DELETE whatever the
environment holds, and when it reaches the reporting point (token present,
rate-limit body parsed) it prints both candidate lists in full. -/
theorem dryRun_performs_no_mutations (args : Args) (env : Env)
    (hm : args.mode = Mode.dryRun) :
    mutationTrace (mainRun args env).1 = [] ∧
    (∀ tok : String, ∀ b : RateBody, env.token = some tok → env.rate.body = some b →
      Event.dryRunReport
          (reconcile (get_paginated followersUrl env.followerPages).2
            (get_paginated followingUrl env.followingPages).2
            args.maxFollows args.maxUnfollows).1
          (reconcile (get_paginated followersUrl env.followerPages).2
            (get_paginated followingUrl env.followingPages).2
            args.maxFollows args.maxUnfollows).2 ∈ (mainRun args env).1) := by
  cases htok : env.token with
  | none =>
    refine ⟨by simp [mainRun, htok, mutationTrace, mutationOf], ?_⟩
    intro tok b h1 h2
    exact Option.noConfusion h1
  | some tok =>
    cases hb : env.rate.body with
    | none =>
      have h2 : (check_rate_limit env.rate env.now).2 = false := by
        simp [check_rate_limit, hb]
      refine ⟨?_, ?_⟩
      · simp only [mainRun, htok, h2, if_pos]
        exact mutationTrace_check_rate_limit env.rate env.now
      · intro tok' b h1 h2'
        exact Option.noConfusion h2'
    | some b =>
      have h2 : (check_rate_limit env.rate env.now).2 = true :=
        check_rate_limit_snd_some env.rate env.now b hb
      refine ⟨?_, ?_⟩
      · simp [mainRun, htok, h2, hm, mutationTrace_append,
          mutationTrace_check_rate_limit, mutationTrace_get_paginated,
          mutationTrace_printCounts_cons, mutationTrace_dryRunReport_cons,
          mutationTrace_nil]
      · intro tok' b' h1 h2'
        simp [mainRun, htok, h2, hm, List.mem_append]

theorem dryRun_performs_no_mutations_witness :
    mutationTrace (mainRun ⟨Mode.dryRun, 5, 5⟩
        ⟨some "t", ⟨200, some ⟨5000, 0⟩⟩, 0,
          [PageResp.ok ["alice", "bob"], PageResp.ok []],
          [PageResp.ok ["bob"], PageResp.ok []],
          fun _ => 204, fun _ => 204⟩).1 = [] ∧
    Event.dryRunReport ["alice"] [] ∈ (mainRun ⟨Mode.dryRun, 5, 5⟩
        ⟨some "t", ⟨200, some ⟨5000, 0⟩⟩, 0,
          [PageResp.ok ["alice", "bob"], PageResp.ok []],
          [PageResp.ok ["bob"], PageResp.ok []],
          fun _ => 204, fun _ => 204⟩).1 := by
  have h := dryRun_performs_no_mutations ⟨Mode.dryRun, 5, 5⟩
    ⟨some "t", ⟨200, some ⟨5000, 0⟩⟩, 0,
      [PageResp.ok ["alice", "bob"], PageResp.ok []],
      [PageResp.ok ["bob"], PageResp.ok []],
      fun _ => 204, fun _ => 204⟩ rfl
  exact ⟨h.1, h.2 "t" ⟨5000, 0⟩ rfl rfl⟩

/-- C8: with the token variable absent, the run prints the error and
returns at once: the trace is exactly that one print, so in particular
no network call of any kind is attempted. -/
theorem missing_token_aborts_before_network (args : Args) (env : Env)
    (h : env.token = none) :
    (mainRun args env).1 = [Event.printTokenError] ∧
    ∀ e ∈ (mainRun args env).1, isNetwork e = false := by
  have ht : (mainRun args env).1 = [Event.printTokenError] := by
    simp [mainRun, h]
  refine ⟨ht, ?_⟩
  intro e he
  rw [ht] at he
  rcases List.mem_singleton.mp he with rfl
  rfl

theorem missing_token_aborts_before_network_witness :
    (mainRun ⟨Mode.execute, 5, 5⟩
        ⟨none, ⟨200, some ⟨5000, 0⟩⟩, 0, [PageResp.ok []], [PageResp.ok []],
          fun _ => 204, fun _ => 204⟩).1 = [Event.printTokenError] :=
  (missing_token_aborts_before_network ⟨Mode.execute, 5, 5⟩
    ⟨none, ⟨200, some ⟨5000, 0⟩⟩, 0, [PageResp.ok []], [PageResp.ok []],
      fun _ => 204, fun _ => 204⟩ rfl).1

/-- C9: in execute mode the sequence of mutation calls of the whole run is
exactly the follow list (as PUTs, in list order) followed by the unfollow
list (as DELETEs, in list order): every follow precedes every unfollow. -/
theorem execute_mutation_order (args : Args) (env : Env) (tok : String) (b : RateBody)
    (hm : args.mode = Mode.execute) (htok : env.token = some tok)
    (hb : env.rate.body = some b) :
    mutationTrace (mainRun args env).1 =
      (reconcile (get_paginated followersUrl env.followerPages).2
          (get_paginated followingUrl env.followingPages).2
          args.maxFollows args.maxUnfollows).1.map (fun u => (true, u)) ++
      (reconcile (get_paginated followersUrl env.followerPages).2
          (get_paginated followingUrl env.followingPages).2
          args.maxFollows args.maxUnfollows).2.map (fun u => (false, u)) := by
  have h2 : (check_rate_limit env.rate env.now).2 = true :=
    check_rate_limit_snd_some env.rate env.now b hb
  simp [mainRun, htok, h2, hm, mutationTrace_append, mutationTrace_check_rate_limit,
    mutationTrace_get_paginated, mutationTrace_executeFollows,
    mutationTrace_executeUnfollows, mutationTrace_printCounts_cons]

theorem execute_mutation_order_witness :
    mutationTrace (mainRun ⟨Mode.execute, 5, 5⟩
        ⟨some "t", ⟨200, some ⟨5000, 0⟩⟩, 0,
          [PageResp.ok ["alice", "bob"], PageResp.ok []],
          [PageResp.ok ["bob", "dave"], PageResp.ok []],
          fun _ => 204, fun _ => 404⟩).1 = [(true, "alice"), (false, "dave")] := by
  rw [execute_mutation_order ⟨Mode.execute, 5, 5⟩
    ⟨some "t", ⟨200, some ⟨5000, 0⟩⟩, 0,
      [PageResp.ok ["alice", "bob"], PageResp.ok []],
      [PageResp.ok ["bob", "dave"], PageResp.ok []],
      fun _ => 204, fun _ => 404⟩ "t" ⟨5000, 0⟩ rfl rfl rfl]
  rfl

end FollowManager
